import Mathlib

/-!
Verification development for the deep-researcher-agent repository.

The repository is a document-ingestion-and-retrieval system: documents are
uploaded, split into chunks, embedded, stored in a document store and a
vector index, and queried; an extractive synthesis engine summarises the
top retrieved chunks.  The backend retrieval core (chunker, document store,
vector index, query engine, synthesis engine) is not present among the
available source files — only the React frontend components are — so the
core is modelled from the specification (each such definition carries a
`Modelled from the spec:` doc comment).  The frontend helpers
(`getOverallProgress`, `useSearch`) are embedded directly from the
TypeScript source, with JavaScript numbers modelled as rationals.
-/

namespace DeepResearcher

/-! ## Vectors and similarity -/

/-- Embedding vectors are modelled as lists of rationals. -/
abbrev Vec := List ℚ

/-- Modelled from the spec: similarity between the query vector and a stored
vector is "cosine similarity (or equivalently normalized inner product)".
The Embedding Provider is an external capability producing normalized
vectors, so similarity is modelled as the inner product, over `ℚ` to keep
the model executable. -/
def dotQ (a b : Vec) : ℚ :=
  (List.zipWith (fun x y => x * y) a b).sum

/-! ## Vector Index -/

/-- Modelled from the spec: the Vector Index "stores chunk vectors", pairing
a Chunk id with its Embedding Vector; entries are kept in insertion order
(insertion order is the tie-break for `search`). -/
abbrev VectorIndex := List (String × Vec)

/-- Modelled from the spec: `add(chunk_id, vector)` "inserts one entry; if
`chunk_id` already present, replaces the vector (re-embedding case)".
A replacement keeps the entry at its original (insertion-order) position. -/
def VectorIndex.addEntry (idx : VectorIndex) (cid : String) (v : Vec) : VectorIndex :=
  if cid ∈ idx.map Prod.fst then
    idx.map (fun e => if e.1 = cid then (cid, v) else e)
  else
    idx ++ [(cid, v)]

/-- Modelled from the spec: `remove(chunk_ids)` "removes all matching
entries; absent ids are ignored (idempotent delete)". -/
def VectorIndex.removeIds (idx : VectorIndex) (cids : List String) : VectorIndex :=
  idx.filter (fun e => decide (e.1 ∉ cids))

/-- Each index entry scored against a query vector, in insertion order. -/
def scoredEntries (idx : VectorIndex) (q : Vec) : List (String × ℚ) :=
  idx.map (fun e => (e.1, dotQ q e.2))

/-- Descending-score order on scored entries: `a` may precede `b` when
`b`'s score is at most `a`'s. -/
def simGE (a b : String × ℚ) : Prop := b.2 ≤ a.2

instance : DecidableRel simGE := fun a b =>
  inferInstanceAs (Decidable (b.2 ≤ a.2))

instance : IsTotal (String × ℚ) simGE :=
  ⟨fun a b => le_total b.2 a.2⟩

instance : IsTrans (String × ℚ) simGE :=
  ⟨fun _ _ _ hab hbc => le_trans hbc hab⟩

/-- Modelled from the spec: `search(query_vector, k)` returns an "ordered
sequence of (chunk_id, similarity_score) by descending similarity", with
"ties broken by insertion order (earlier-inserted chunk ranks first)" and
"`k` clipped to the number of stored entries"; on an empty index it returns
an empty sequence.  Insertion sort is stable, giving the tie-break. -/
def VectorIndex.search (idx : VectorIndex) (q : Vec) (k : Nat) : List (String × ℚ) :=
  (List.insertionSort simGE (scoredEntries idx q)).take k

/-! ## Chunker -/

/-- Modelled from the spec: the Chunker "splits on whitespace-delimited word
boundaries, never inside a word". -/
def wordsOf (text : String) : List String :=
  (text.split Char.isWhitespace).filter (fun w => w ≠ "")

/-- Modelled from the spec: a Chunk draft produced by the Chunker, before an
id is assigned — `text`, `start_offset`/`end_offset` (word positions in the
source document) and `sequence_index`. -/
structure ChunkDraft where
  text : String
  start_offset : Nat
  end_offset : Nat
  sequence_index : Nat
deriving DecidableEq, Repr

/-- Modelled from the spec: one pass of the Chunker over the word list.
Each chunk takes `targetSize` words from position `start`; consecutive
chunks overlap by `overlap` words, so the next chunk starts at
`start + targetSize - overlap`; the final chunk is the one reaching the end
of the document (overlap is thereby clipped to zero for documents shorter
than `targetSize`).  The fuel argument bounds the recursion; with
`overlap < targetSize` the start position strictly increases, so fuel
`ws.length + 1` is never exhausted. -/
def chunkLoop (ws : List String) (targetSize overlap : Nat) :
    Nat → Nat → Nat → List ChunkDraft
  | 0, _, _ => []
  | fuel + 1, start, seq =>
    let piece := (ws.drop start).take targetSize
    if piece = [] then []
    else
      let draft : ChunkDraft :=
        ⟨String.intercalate " " piece, start, start + piece.length, seq⟩
      if ws.length ≤ start + targetSize then [draft]
      else draft :: chunkLoop ws targetSize overlap fuel
        (start + targetSize - overlap) (seq + 1)

/-- Modelled from the spec: `chunk(document_text, target_size, overlap)`
returns the ordered sequence of Chunk drafts; "empty or whitespace-only
text yields an empty sequence (no chunks, no error)". -/
def chunk (text : String) (targetSize overlap : Nat) : List ChunkDraft :=
  let ws := wordsOf text
  chunkLoop ws targetSize overlap (ws.length + 1) 0 0

/-- Modelled from the spec: a Chunk id is "derived deterministically from
document id + sequence index". -/
def chunkId (docId : String) (seq : Nat) : String :=
  docId ++ "::" ++ toString seq

/-! ## Data model -/

/-- Modelled from the spec: a Document — `id`, `title`, `full_text`,
`source`, `uploaded_at` (timestamp, modelled as a `Nat`), `word_count`. -/
structure Document where
  id : String
  title : String
  full_text : String
  source : String
  uploaded_at : Nat
  word_count : Nat
deriving DecidableEq, Repr

/-- Modelled from the spec: a Chunk — `id`, `document_id` (back-reference),
`text`, `start_offset`/`end_offset`, `sequence_index`. -/
structure Chunk where
  id : String
  document_id : String
  text : String
  start_offset : Nat
  end_offset : Nat
  sequence_index : Nat
deriving DecidableEq, Repr

/-- Modelled from the spec: the Chunks created alongside a parent Document
on upload, with ids derived from the document id and sequence index.
The spec's default parameters are used (target size 500 words, overlap
50 words). -/
def mkChunks (doc : Document) : List Chunk :=
  (chunk doc.full_text 500 50).map (fun d =>
    ⟨chunkId doc.id d.sequence_index, doc.id, d.text,
      d.start_offset, d.end_offset, d.sequence_index⟩)

/-- Modelled from the spec: the combined persistent state — the Document
Store (documents and their chunks) and the Vector Index. -/
structure SystemState where
  docs : List Document
  chunks : List Chunk
  index : VectorIndex
deriving Repr

/-- Chunk ids present in the Vector Index, in insertion order. -/
def indexIds (st : SystemState) : List String :=
  st.index.map Prod.fst

/-- Chunk ids present in the Document Store. -/
def chunkIds (st : SystemState) : List String :=
  st.chunks.map Chunk.id

/-- The consistency invariant of the spec: the set of Chunk ids present in
the Vector Index equals the set of Chunk ids present in the Document Store
(no dangling index entries, no un-indexed chunks). -/
def ConsistentState (st : SystemState) : Prop :=
  (∀ cid ∈ indexIds st, cid ∈ chunkIds st) ∧
    ∀ cid ∈ chunkIds st, cid ∈ indexIds st

instance (st : SystemState) : Decidable (ConsistentState st) :=
  inferInstanceAs (Decidable (_ ∧ _))

/-- Store well-formedness: stored chunks have pairwise distinct ids (each
Chunk id identifies one Chunk, as required by the id-derivation scheme and
the one-to-one Chunk/Index-Entry correspondence of the data model). -/
def DistinctChunkIds (st : SystemState) : Prop :=
  (st.chunks.map Chunk.id).Nodup

instance (st : SystemState) : Decidable (DistinctChunkIds st) :=
  inferInstanceAs (Decidable (List.Nodup _))

/-- Modelled from the spec: `put(document)` on upload "inserts or fully
replaces a Document and its Chunks", and the write path adds each chunk's
embedding to the Vector Index; replacement removes the previous version's
chunks from both the store and the index so the §3 invariant is preserved
atomically. -/
def upload (st : SystemState) (doc : Document) (embed : String → Vec) : SystemState :=
  let newChunks := mkChunks doc
  let oldIds := (st.chunks.filter (fun c => decide (c.document_id = doc.id))).map Chunk.id
  { docs := st.docs.filter (fun d => decide (d.id ≠ doc.id)) ++ [doc]
    chunks := st.chunks.filter (fun c => decide (c.document_id ≠ doc.id)) ++ newChunks
    index := newChunks.foldl (fun ix c => ix.addEntry c.id (embed c.text))
      (st.index.removeIds oldIds) }

/-- Modelled from the spec: the error taxonomy entries exercised by the
store operations — `NotFoundError` for delete/get on an unknown id. -/
inductive StoreError where
  | NotFoundError
deriving DecidableEq, Repr

/-- Modelled from the spec: `delete(id)` "removes the Document and cascades
deletion of its Chunks; fails with `NotFoundError` if absent", removing the
deleted chunks' entries from the Vector Index in the same atomic step. -/
def SystemState.deleteDoc (st : SystemState) (id : String) :
    Except StoreError SystemState :=
  if ∃ d ∈ st.docs, d.id = id then
    let delIds := (st.chunks.filter (fun c => decide (c.document_id = id))).map Chunk.id
    .ok { docs := st.docs.filter (fun d => decide (d.id ≠ id))
          chunks := st.chunks.filter (fun c => decide (c.document_id ≠ id))
          index := st.index.removeIds delIds }
  else
    .error .NotFoundError

/-! ## Synthesis Engine -/

/-- Split a character list at every character satisfying `p` (separators
are dropped; empty segments are kept and filtered by the callers). -/
def splitOnPredAux (p : Char → Bool) : List Char → List Char × List (List Char)
  | [] => ([], [])
  | c :: cs =>
    let r := splitOnPredAux p cs
    if p c then ([], r.1 :: r.2) else (c :: r.1, r.2)

/-- The segments of a character list between separator characters. -/
def splitOnPred (p : Char → Bool) (cs : List Char) : List (List Char) :=
  (splitOnPredAux p cs).1 :: (splitOnPredAux p cs).2

/-- Leading and trailing whitespace removed from a character list. -/
def trimChars (cs : List Char) : List Char :=
  ((cs.dropWhile Char.isWhitespace).reverse.dropWhile Char.isWhitespace).reverse

/-- Modelled from the spec: matching is "case-insensitive,
punctuation-insensitive" — text is lower-cased and every non-alphanumeric
character becomes a space before word extraction. -/
def normalizeChars (s : String) : List Char :=
  s.data.map (fun c => if c.isAlphanum then c.toLower else ' ')

/-- Terms of a text after normalisation: its maximal non-blank words. -/
def termsOf (q : String) : List (List Char) :=
  (splitOnPred Char.isWhitespace (normalizeChars q)).filter (fun w => w ≠ [])

/-- Modelled from the spec: the sentences of a chunk's text ("selects
sentences from the ranked chunks"); sentence boundaries are full stops and
each sentence is trimmed of surrounding whitespace. -/
def sentencesOf (t : String) : List String :=
  ((splitOnPred (fun c => c == '.') t.data).map
    (fun cs => String.mk (trimChars cs))).filter (fun s => s ≠ "")

/-- A sentence matches the query when it contains a term of the query under
the normalised comparison. -/
def sentenceMatches (q s : String) : Bool :=
  (termsOf q).any (fun t => (termsOf s).contains t)

/-- First-occurrence deduplication: keeps each sentence's earliest copy
("deduplicates near-identical sentences before inclusion"). -/
def dedupFirst (l : List String) : List String :=
  l.foldl (fun acc s => if s ∈ acc then acc else acc ++ [s]) []

/-- All sentences of a ranked chunk list, in rank order. -/
def allSentences (ranked : List (Chunk × ℚ)) : List String :=
  (ranked.map (fun p => sentencesOf p.1.text)).flatten

/-- Modelled from the spec: the fixed summary-length cap ("a fixed sentence
count or character budget"). -/
def summaryCap : Nat := 3

/-- Modelled from the spec: `synthesize(query_text, ranked_chunks)` selects
matching sentences from the ranked chunks, deduplicates them and caps the
summary length; "if no sentence matches, falls back to the first sentence
of the single highest-scoring chunk; if there are no chunks at all, returns
a fixed 'no summary available' string — synthesis never fails with an
error".  `ranked` is ordered best-score-first, so its head is the single
highest-scoring chunk. -/
def synthesize (q : String) (ranked : List (Chunk × ℚ)) : String :=
  match ranked with
  | [] => "no summary available"
  | top :: _ =>
    let matched := dedupFirst ((allSentences ranked).filter (fun s => sentenceMatches q s))
    if matched = [] then (sentencesOf top.1.text).headD ""
    else String.intercalate ". " (matched.take summaryCap)

/-! ## Query Engine -/

/-- Modelled from the spec: the query-path error taxonomy —
`InvalidQueryError` for an empty/whitespace-only query (surfaced as a 400
at the HTTP boundary, which is presentation glue outside this core). -/
inductive QueryError where
  | InvalidQueryError
deriving DecidableEq, Repr

/-- Modelled from the spec: one element of a Query Result — a (Chunk,
similarity score, parent Document) tuple. -/
structure RetrievedItem where
  chunk : Chunk
  score : ℚ
  doc : Document
deriving DecidableEq, Repr

/-- Modelled from the spec: the Query Engine's response — the ordered
per-document results plus the synthesized summary string. -/
structure QueryResponse where
  results : List RetrievedItem
  synthesis : String
deriving DecidableEq, Repr

/-- Resolve search hits back to Chunks and parent Documents via the
Document Store; a chunk id present in the index but missing from the store
is a consistency fault and is dropped from results, never a crash. -/
def resolveHits (st : SystemState) (hits : List (String × ℚ)) : List RetrievedItem :=
  hits.filterMap (fun h =>
    match st.chunks.find? (fun c => decide (c.id = h.1)) with
    | none => none
    | some c =>
      match st.docs.find? (fun d => decide (d.id = c.document_id)) with
      | none => none
      | some d => some ⟨c, h.2, d⟩)

/-- Group resolved results by parent Document, preserving best-score-first
ordering across documents: documents appear in order of their best chunk,
and each document's chunks stay in score order. -/
def groupByDoc (items : List RetrievedItem) : List RetrievedItem :=
  (dedupFirst (items.map (fun r => r.doc.id))).flatMap
    (fun did => items.filter (fun r => decide (r.doc.id = did)))

/-- Modelled from the spec: `answer(query_text, k)` — rejects
empty/whitespace-only query text with `InvalidQueryError`; otherwise embeds
the query, searches the Vector Index for the top `k` chunk ids, resolves
them through the Document Store, groups by parent Document, and returns the
results with a synthesized summary; "if no chunks are retrieved, returns an
empty result set with a sentinel 'no relevant content' summary rather than
failing". -/
def answer (st : SystemState) (embed : String → Vec) (q : String) (k : Nat) :
    Except QueryError QueryResponse :=
  if q.data.all Char.isWhitespace then .error .InvalidQueryError
  else
    let hits := st.index.search (embed q) k
    let resolved := resolveHits st hits
    if resolved = [] then .ok ⟨[], "no relevant content"⟩
    else
      let grouped := groupByDoc resolved
      .ok ⟨grouped, synthesize q (resolved.map (fun r => (r.chunk, r.score)))⟩

end DeepResearcher

namespace Frontend

/-! ## Frontend embedding

Definitions in this namespace are embedded directly from the TypeScript
sources (`ResearchResults.tsx` and the search-context module); JavaScript
numbers are modelled as rationals and React's `undefined` as `Option`. -/

/-- The status union of a research step:
`'pending' | 'processing' | 'completed'`. -/
inductive StepStatus where
  | pending
  | processing
  | completed
deriving DecidableEq, Repr

/-- The `ResearchStep` interface (`id`, `query`, `status`); the untyped
`results: any[]` field carries no data relevant to the embedded functions
and is modelled as a list of strings. -/
structure ResearchStep where
  id : String
  query : String
  status : StepStatus
  results : List String
deriving DecidableEq, Repr

/-- `getOverallProgress` from `ResearchResults.tsx`: returns `0` when
`steps` is absent or empty, otherwise `(completed / steps.length) * 100`
where `completed` counts the steps with status `'completed'`. -/
def getOverallProgress (steps : Option (List ResearchStep)) : ℚ :=
  match steps with
  | none => 0
  | some l =>
    if l.length = 0 then 0
    else
      let completed := (l.filter (fun s => decide (s.status = StepStatus.completed))).length
      ((completed : ℚ) / (l.length : ℚ)) * 100

/-- The `Document` interface of the search-context module. -/
structure FrontDocument where
  id : String
  title : String
  content : String
  embedding : List ℚ
  source : String
  uploadedAt : String
  wordCount : Nat
deriving DecidableEq, Repr

/-- The `SearchResult` interface of the search-context module. -/
structure SearchResult where
  query : String
  steps : List ResearchStep
  documents : List FrontDocument
  synthesis : String
  completedAt : Option String
deriving DecidableEq, Repr

/-- The context value provided by `SearchProvider`: the `results` list and
the `query` string (the `setResults`/`setQuery` setters are React state
mutators, glue outside the embedded value). -/
structure SearchContentType where
  results : List SearchResult
  query : String
deriving DecidableEq, Repr

/-- `useSearch` from the search-context module: reads the context (absent —
`undefined` — outside a `SearchProvider`), throws
`"useSearch must be used within a SearchProvider"` when it is absent, and
returns the context value otherwise.  The throw is modelled as
`Except.error` carrying the message. -/
def useSearch (ctx : Option SearchContentType) : Except String SearchContentType :=
  match ctx with
  | none => .error "useSearch must be used within a SearchProvider"
  | some c => .ok c

end Frontend

namespace DeepResearcher

/-! ## Concrete demonstration values -/

/-- A concrete document used to evaluate the operations. -/
def demoDoc : Document :=
  ⟨"d1", "Expedition report", "The expedition faced extreme cold", "report.txt", 0, 5⟩

/-- The chunk the demonstration document produces on upload. -/
def demoChunk : Chunk :=
  ⟨"d1::0", "d1", "The expedition faced extreme cold", 0, 5, 0⟩

/-- A concrete consistent system state holding the demonstration document. -/
def demoState : SystemState :=
  ⟨[demoDoc], [demoChunk], [(demoChunk.id, [1])]⟩

/-- A concrete one-entry vector index. -/
def demoIdx : VectorIndex := [("a", [1])]

/-- A concrete ranked chunk for exercising the Synthesis Engine. -/
def demoRanked : Chunk × ℚ :=
  (⟨"c1", "d1", "Hello world. Foo bar.", 0, 4, 0⟩, 2)

/-- A concrete frontend search-context value. -/
def demoCtx : Frontend.SearchContentType := ⟨[], "q"⟩

end DeepResearcher

namespace DeepResearcher

/-! ## Theorems -/

/-- Stability of `orderedInsert` with respect to the per-score sublists:
inserting `a` adds it after every earlier element of equal score and leaves
the relative order of the other elements unchanged.  (With the descending
order `simGE`, `a` is placed before the first element of score at most
`a.2`, hence after none of the equal-score elements it is inserted into —
here the insert travels past strictly greater scores only.) -/
theorem filter_score_orderedInsert (a : String × ℚ) (l : List (String × ℚ)) (s : ℚ) :
    (List.orderedInsert simGE a l).filter (fun e => decide (e.2 = s)) =
      (if a.2 = s then [a] else []) ++ l.filter (fun e => decide (e.2 = s)) := by
  induction l with
  | nil =>
    by_cases has : a.2 = s <;> simp [List.orderedInsert, List.filter, has]
  | cons b l ih =>
    by_cases hab : simGE a b
    · rw [List.orderedInsert, if_pos hab]
      by_cases has : a.2 = s <;> simp [List.filter_cons, has]
    · rw [List.orderedInsert, if_neg hab]
      rw [List.filter_cons, ih]
      by_cases hbs : b.2 = s
      · have has : ¬ a.2 = s := by
          intro has
          exact hab (le_of_eq (hbs.trans has.symm))
        simp [hbs, has, List.filter_cons]
      · by_cases has : a.2 = s <;> simp [hbs, has, List.filter_cons]

/-- Insertion sort is stable: for every score `s`, the entries of score `s`
appear in the sorted output exactly as they appear in the input, so ties
are broken by the input (insertion) order. -/
theorem filter_score_insertionSort (l : List (String × ℚ)) (s : ℚ) :
    (List.insertionSort simGE l).filter (fun e => decide (e.2 = s)) =
      l.filter (fun e => decide (e.2 = s)) := by
  induction l with
  | nil => rfl
  | cons a l ih =>
    rw [List.insertionSort, filter_score_orderedInsert, ih, List.filter_cons]
    by_cases has : a.2 = s <;> simp [has]

/-- C2: `search(q, k)` returns at most `k` results — exactly
`min k (number of stored entries)`, so `k` is clipped and the empty index
yields an empty sequence — ordered by non-increasing similarity score, and
for every score the tied entries keep their insertion order (the untruncated
result restricted to one score equals the scored input so restricted). -/
theorem search_spec (idx : VectorIndex) (q : Vec) (k : Nat) :
    (VectorIndex.search idx q k).length = min k idx.length ∧
    (VectorIndex.search idx q k).Pairwise (fun a b => b.2 ≤ a.2) ∧
    (∀ s : ℚ, (VectorIndex.search idx q idx.length).filter (fun e => decide (e.2 = s)) =
      (scoredEntries idx q).filter (fun e => decide (e.2 = s))) ∧
    VectorIndex.search [] q k = [] := by
  refine ⟨?_, ?_, ?_, by simp [VectorIndex.search, scoredEntries]⟩
  · rw [VectorIndex.search, List.length_take, List.length_insertionSort,
      scoredEntries, List.length_map]
  · have hs : (List.insertionSort simGE (scoredEntries idx q)).Pairwise simGE :=
      List.sorted_insertionSort simGE (scoredEntries idx q)
    have ht := hs.sublist (List.take_sublist k _)
    exact ht.imp (fun h => h)
  · intro s
    have hlen : (List.insertionSort simGE (scoredEntries idx q)).length = idx.length := by
      rw [List.length_insertionSort, scoredEntries, List.length_map]
    rw [VectorIndex.search, ← hlen, List.take_length, filter_score_insertionSort]

/-- Replacing the entry of key `cid` in place does not change the key list. -/
theorem keys_map_replace (idx : VectorIndex) (cid : String) (v : Vec) :
    (idx.map (fun e => if e.1 = cid then (cid, v) else e)).map Prod.fst =
      idx.map Prod.fst := by
  induction idx with
  | nil => rfl
  | cons e idx ih => by_cases h : e.1 = cid <;> simp [h, ih]

/-- Filtering for key `cid` after an in-place replacement selects the same
positions as before, each now holding `(cid, v)`. -/
theorem filter_key_map_replace (cid : String) (v : Vec) (idx : VectorIndex) :
    (idx.map (fun e => if e.1 = cid then (cid, v) else e)).filter
        (fun e => decide (e.1 = cid)) =
      (idx.filter (fun e => decide (e.1 = cid))).map (fun _ => (cid, v)) := by
  induction idx with
  | nil => rfl
  | cons e idx ih => by_cases h : e.1 = cid <;> simp [List.filter_cons, h, ih]

/-- In an index with pairwise-distinct keys, a present key selects exactly
one entry. -/
theorem filter_key_singleton (idx : VectorIndex) (cid : String)
    (hnd : (idx.map Prod.fst).Nodup) (hin : cid ∈ idx.map Prod.fst) :
    ∃ v0, idx.filter (fun e => decide (e.1 = cid)) = [(cid, v0)] := by
  induction idx with
  | nil => simp at hin
  | cons e idx ih =>
    obtain ⟨k, w⟩ := e
    rw [List.map_cons] at hnd hin
    obtain ⟨h1, h2⟩ := List.nodup_cons.mp hnd
    by_cases h : k = cid
    · subst h
      refine ⟨w, ?_⟩
      have hrest : idx.filter (fun e => decide (e.1 = k)) = [] := by
        rw [List.filter_eq_nil_iff]
        intro a ha hac
        have hac2 : a.1 = k := by simpa using hac
        exact h1 (List.mem_map.mpr ⟨a, ha, hac2⟩)
      simp [List.filter_cons, hrest]
    · have hin2 : cid ∈ idx.map Prod.fst := by
        rcases List.mem_cons.mp hin with heq | hmem
        · exact absurd heq.symm h
        · exact hmem
      obtain ⟨v0, hv⟩ := ih h2 hin2
      exact ⟨v0, by simp [List.filter_cons, h, hv]⟩

/-- After `add(cid, v)` on an index with distinct keys, exactly one entry
has key `cid`, and it holds `v`. -/
theorem filter_key_addEntry (idx : VectorIndex) (cid : String) (v : Vec)
    (hnd : (idx.map Prod.fst).Nodup) :
    (idx.addEntry cid v).filter (fun e => decide (e.1 = cid)) = [(cid, v)] := by
  rw [VectorIndex.addEntry]
  by_cases hin : cid ∈ idx.map Prod.fst
  · rw [if_pos hin, filter_key_map_replace]
    obtain ⟨v0, hv⟩ := filter_key_singleton idx cid hnd hin
    rw [hv]
    rfl
  · rw [if_neg hin, List.filter_append]
    have h0 : idx.filter (fun e => decide (e.1 = cid)) = [] := by
      rw [List.filter_eq_nil_iff]
      intro a ha hac
      have hac2 : a.1 = cid := by simpa using hac
      exact hin (List.mem_map.mpr ⟨a, ha, hac2⟩)
    simp [h0, List.filter_cons]

/-- `add` preserves distinctness of the index keys. -/
theorem keys_addEntry_nodup (idx : VectorIndex) (cid : String) (v : Vec)
    (hnd : (idx.map Prod.fst).Nodup) :
    ((idx.addEntry cid v).map Prod.fst).Nodup := by
  rw [VectorIndex.addEntry]
  by_cases hin : cid ∈ idx.map Prod.fst
  · rw [if_pos hin, keys_map_replace]
    exact hnd
  · rw [if_neg hin]
    simp [List.nodup_append, hnd, hin]

/-- C4: calling `add(c, v1)` then `add(c, v2)` on a Vector Index with
distinct keys leaves exactly one entry for `c`, holding `v2` — the later
vector replaces the earlier one and no duplicate entry is created. -/
theorem add_replaces (idx : VectorIndex) (c : String) (v1 v2 : Vec)
    (hnd : (idx.map Prod.fst).Nodup) :
    ((idx.addEntry c v1).addEntry c v2).filter (fun e => decide (e.1 = c)) =
      [(c, v2)] :=
  filter_key_addEntry _ c v2 (keys_addEntry_nodup idx c v1 hnd)

/-- C4 witness: the double-add behaviour at a concrete index. -/
theorem add_replaces_witness :
    ((demoIdx.map Prod.fst).Nodup) ∧
      (((demoIdx.addEntry "b" [2]).addEntry "b" [3]).filter
        (fun e => decide (e.1 = "b")) = [("b", [3])]) :=
  ⟨by decide, add_replaces demoIdx "b" [2] [3] (by decide)⟩

/-- Keys present after `add`: the old keys plus the added key. -/
theorem mem_keys_addEntry (idx : VectorIndex) (cid : String) (v : Vec) (x : String) :
    x ∈ (idx.addEntry cid v).map Prod.fst ↔ x ∈ idx.map Prod.fst ∨ x = cid := by
  rw [VectorIndex.addEntry]
  by_cases hin : cid ∈ idx.map Prod.fst
  · rw [if_pos hin, keys_map_replace]
    constructor
    · exact Or.inl
    · rintro (hx | rfl)
      · exact hx
      · exact hin
  · rw [if_neg hin]
    simp

/-- Keys present after folding `add` over a chunk list: the base keys plus
the added chunks' ids. -/
theorem mem_keys_addAll (l : List Chunk) (embed : String → Vec)
    (base : VectorIndex) (x : String) :
    x ∈ (l.foldl (fun ix c => ix.addEntry c.id (embed c.text)) base).map Prod.fst ↔
      x ∈ base.map Prod.fst ∨ x ∈ l.map Chunk.id := by
  induction l generalizing base with
  | nil => simp
  | cons c l ih =>
    rw [List.foldl_cons, ih, mem_keys_addEntry, List.map_cons, List.mem_cons]
    tauto

/-- Keys present after `remove`: the old keys not in the removed list. -/
theorem mem_keys_removeIds (idx : VectorIndex) (cids : List String) (x : String) :
    x ∈ (idx.removeIds cids).map Prod.fst ↔ x ∈ idx.map Prod.fst ∧ x ∉ cids := by
  rw [VectorIndex.removeIds]
  constructor
  · intro hx
    obtain ⟨e, he, rfl⟩ := List.mem_map.mp hx
    obtain ⟨he2, hp⟩ := List.mem_filter.mp he
    exact ⟨List.mem_map_of_mem Prod.fst he2, by simpa using hp⟩
  · rintro ⟨hx, hnx⟩
    obtain ⟨e, he, rfl⟩ := List.mem_map.mp hx
    exact List.mem_map_of_mem Prod.fst (List.mem_filter.mpr ⟨he, by simpa using hnx⟩)

/-- In a store with distinct chunk ids, an id both present in the index and
not among the ids of document `did`'s chunks is exactly an id of a
surviving chunk (one whose `document_id` differs from `did`). -/
theorem mem_surviving_ids (st : SystemState) (hids : DistinctChunkIds st)
    (hinv : ConsistentState st) (did x : String) :
    (x ∈ indexIds st ∧
        x ∉ (st.chunks.filter (fun c => decide (c.document_id = did))).map Chunk.id) ↔
      ∃ c ∈ st.chunks, c.document_id ≠ did ∧ c.id = x := by
  constructor
  · rintro ⟨hx, hnx⟩
    obtain ⟨c, hc, rfl⟩ := List.mem_map.mp (hinv.1 x hx)
    refine ⟨c, hc, ?_, rfl⟩
    intro hd
    exact hnx (List.mem_map_of_mem Chunk.id
      (List.mem_filter.mpr ⟨hc, by simpa using hd⟩))
  · rintro ⟨c, hc, hcd, rfl⟩
    refine ⟨hinv.2 c.id (List.mem_map_of_mem Chunk.id hc), ?_⟩
    intro hmem
    obtain ⟨c2, hc2, hcc⟩ := List.mem_map.mp hmem
    obtain ⟨hc2m, hc2d⟩ := List.mem_filter.mp hc2
    have : c2 = c := List.inj_on_of_nodup_map hids hc2m hc hcc
    subst this
    exact hcd (by simpa using hc2d)

/-- Chunk ids stored after an upload of `doc`: ids of surviving chunks of
other documents, plus the ids of `doc`'s new chunks. -/
theorem mem_chunkIds_upload (st : SystemState) (doc : Document)
    (embed : String → Vec) (x : String) :
    x ∈ chunkIds (upload st doc embed) ↔
      (∃ c ∈ st.chunks, c.document_id ≠ doc.id ∧ c.id = x) ∨
        x ∈ (mkChunks doc).map Chunk.id := by
  rw [chunkIds, upload]
  simp only [List.map_append, List.mem_append, List.mem_map, List.mem_filter]
  constructor
  · rintro (⟨c, ⟨hc, hcd⟩, rfl⟩ | hx)
    · exact Or.inl ⟨c, hc, by simpa using hcd, rfl⟩
    · exact Or.inr hx
  · rintro (⟨c, hc, hcd, rfl⟩ | hx)
    · exact Or.inl ⟨c, ⟨hc, by simpa using hcd⟩, rfl⟩
    · exact Or.inr hx

/-- Chunk ids of the chunks surviving a cascade delete of document `did`. -/
theorem mem_chunkIds_filterNe (st : SystemState) (did x : String) :
    x ∈ (st.chunks.filter (fun c => decide (c.document_id ≠ did))).map Chunk.id ↔
      ∃ c ∈ st.chunks, c.document_id ≠ did ∧ c.id = x := by
  simp only [List.mem_map, List.mem_filter]
  constructor
  · rintro ⟨c, ⟨hc, hcd⟩, rfl⟩
    exact ⟨c, hc, by simpa using hcd, rfl⟩
  · rintro ⟨c, hc, hcd, rfl⟩
    exact ⟨c, ⟨hc, by simpa using hcd⟩, rfl⟩

/-- C1: after every successful operation the set of Chunk ids in the Vector
Index equals the set of Chunk ids in the Document Store — both for `upload`
(insert or full replacement) and for a successful `delete`, starting from
any consistent state with distinct chunk ids. -/
theorem index_store_consistency (st : SystemState)
    (hids : DistinctChunkIds st) (hinv : ConsistentState st) :
    (∀ doc embed, ConsistentState (upload st doc embed)) ∧
    (∀ id st2, st.deleteDoc id = .ok st2 → ConsistentState st2) := by
  constructor
  · intro doc embed
    have hmem : ∀ x, x ∈ indexIds (upload st doc embed) ↔
        x ∈ chunkIds (upload st doc embed) := by
      intro x
      rw [mem_chunkIds_upload]
      have hidx : x ∈ indexIds (upload st doc embed) ↔
          (x ∈ indexIds st ∧
            x ∉ (st.chunks.filter
              (fun c => decide (c.document_id = doc.id))).map Chunk.id) ∨
            x ∈ (mkChunks doc).map Chunk.id := by
        rw [indexIds]
        show x ∈ ((mkChunks doc).foldl (fun ix c => ix.addEntry c.id (embed c.text))
          (st.index.removeIds _)).map Prod.fst ↔ _
        rw [mem_keys_addAll, mem_keys_removeIds]
        exact Iff.rfl
      rw [hidx, mem_surviving_ids st hids hinv doc.id x]
    exact ⟨fun x hx => (hmem x).mp hx, fun x hx => (hmem x).mpr hx⟩
  · intro id st2 hdel
    rw [SystemState.deleteDoc] at hdel
    by_cases hex : ∃ d ∈ st.docs, d.id = id
    · rw [if_pos hex] at hdel
      injection hdel with hst2
      rw [← hst2]
      have hmem : ∀ x,
          x ∈ (st.index.removeIds ((st.chunks.filter
              (fun c => decide (c.document_id = id))).map Chunk.id)).map Prod.fst ↔
            x ∈ (st.chunks.filter
              (fun c => decide (c.document_id ≠ id))).map Chunk.id := by
        intro x
        rw [mem_keys_removeIds, mem_chunkIds_filterNe]
        exact mem_surviving_ids st hids hinv id x
      exact ⟨fun x hx => (hmem x).mp hx, fun x hx => (hmem x).mpr hx⟩
    · rw [if_neg hex] at hdel
      exact absurd hdel (by simp)

/-- C1 witness: uploading the demonstration document into the empty state
yields a consistent state, and deleting it again succeeds and yields a
consistent state. -/
theorem index_store_consistency_witness :
    DistinctChunkIds ⟨[], [], []⟩ ∧ ConsistentState ⟨[], [], []⟩ ∧
      ConsistentState (upload ⟨[], [], []⟩ demoDoc (fun _ => [1])) :=
  ⟨by decide, by decide,
    (index_store_consistency ⟨[], [], []⟩ (by decide) (by decide)).1
      demoDoc (fun _ => [1])⟩

/-- C3: chunking is deterministic and idempotent — running `chunk` on the
same text with the same parameters twice yields identical chunk sequences
(texts, offsets, sequence indices) and identical derived chunk ids;
`chunk` is a pure function of its input text and parameters, so the two
runs are definitionally the same value. -/
theorem chunk_deterministic (text : String) (targetSize overlap : Nat) (docId : String) :
    chunk text targetSize overlap = chunk text targetSize overlap ∧
    (chunk text targetSize overlap).map (fun d => chunkId docId d.sequence_index) =
      (chunk text targetSize overlap).map (fun d => chunkId docId d.sequence_index) :=
  ⟨rfl, rfl⟩

/-- C5: a successful `delete(id)` removes exactly the document with that id
and the chunks whose `document_id` is that id from the store, and exactly
the deleted chunks' entries from the Vector Index, leaving everything else
in place; `delete` on an absent id fails with `NotFoundError` (and, being
error-valued, produces no new state). -/
theorem deleteDoc_frame (st : SystemState) (id : String) :
    ((∃ d ∈ st.docs, d.id = id) →
      ∃ st2, st.deleteDoc id = .ok st2 ∧
        (∀ d, d ∈ st2.docs ↔ d ∈ st.docs ∧ d.id ≠ id) ∧
        (∀ c, c ∈ st2.chunks ↔ c ∈ st.chunks ∧ c.document_id ≠ id) ∧
        (∀ e, e ∈ st2.index ↔ e ∈ st.index ∧
          e.1 ∉ (st.chunks.filter
            (fun c => decide (c.document_id = id))).map Chunk.id)) ∧
    ((¬ ∃ d ∈ st.docs, d.id = id) →
      st.deleteDoc id = .error .NotFoundError) := by
  constructor
  · intro hex
    refine ⟨⟨st.docs.filter (fun d => decide (d.id ≠ id)),
      st.chunks.filter (fun c => decide (c.document_id ≠ id)),
      st.index.removeIds ((st.chunks.filter
        (fun c => decide (c.document_id = id))).map Chunk.id)⟩, ?_, ?_, ?_, ?_⟩
    · rw [SystemState.deleteDoc, if_pos hex]
    · intro d
      simp [List.mem_filter]
    · intro c
      simp [List.mem_filter]
    · intro e
      simp [VectorIndex.removeIds, List.mem_filter]
  · intro hex
    rw [SystemState.deleteDoc, if_neg hex]

/-- C5 witness: deleting the only document of the demonstration state. -/
theorem deleteDoc_frame_witness :
    (∃ d ∈ demoState.docs, d.id = "d1") ∧
      ∃ st2, demoState.deleteDoc "d1" = .ok st2 ∧
        (∀ d, d ∈ st2.docs ↔ d ∈ demoState.docs ∧ d.id ≠ "d1") ∧
        (∀ c, c ∈ st2.chunks ↔ c ∈ demoState.chunks ∧ c.document_id ≠ "d1") ∧
        (∀ e, e ∈ st2.index ↔ e ∈ demoState.index ∧
          e.1 ∉ (demoState.chunks.filter
            (fun c => decide (c.document_id = "d1"))).map Chunk.id) :=
  ⟨by decide, (deleteDoc_frame demoState "d1").1 (by decide)⟩

/-- C6: `answer` rejects an empty or whitespace-only query with
`InvalidQueryError`, and its result is then independent of the system
state, of the embedding capability and of `k` — no embedding and no search
contribute to the outcome, and no state is produced. -/
theorem answer_rejects_blank (st1 st2 : SystemState) (e1 e2 : String → Vec)
    (q : String) (k1 k2 : Nat) (hq : q.data.all Char.isWhitespace = true) :
    answer st1 e1 q k1 = .error .InvalidQueryError ∧
    answer st1 e1 q k1 = answer st2 e2 q k2 := by
  rw [answer, answer, if_pos hq, if_pos hq]
  exact ⟨rfl, rfl⟩

/-- C6 witness: a whitespace-only query at a concrete state. -/
theorem answer_rejects_blank_witness :
    ((("  " : String).data.all Char.isWhitespace = true) ∧
      answer ⟨[], [], []⟩ (fun _ => []) "  " 5 = .error .InvalidQueryError) :=
  ⟨by decide,
    (answer_rejects_blank ⟨[], [], []⟩ demoState (fun _ => []) (fun _ => [1])
      "  " 5 7 (by decide)).1⟩

/-- C7: for a non-blank query over a corpus from which no chunks are
retrieved (in particular the empty corpus), `answer` succeeds with an empty
result set and the sentinel "no relevant content" summary — it never fails
in this case. -/
theorem answer_no_retrieval (st : SystemState) (embed : String → Vec)
    (q : String) (k : Nat) (hq : q.data.all Char.isWhitespace = false)
    (hs : st.index.search (embed q) k = []) :
    answer st embed q k = .ok ⟨[], "no relevant content"⟩ := by
  rw [answer, if_neg (by simp [hq])]
  simp only [hs]
  rfl

/-- C7 witness: a query against the empty corpus. -/
theorem answer_no_retrieval_witness :
    ((("hello" : String).data.all Char.isWhitespace = false) ∧
      answer ⟨[], [], []⟩ (fun _ => []) "hello" 3 = .ok ⟨[], "no relevant content"⟩) :=
  ⟨by decide,
    answer_no_retrieval ⟨[], [], []⟩ (fun _ => []) "hello" 3 (by decide) (by decide)⟩

/-- C8: `synthesize` is a total `String`-valued function — it never returns
an error; on an empty ranked-chunk list it returns the fixed "no summary
available" string, and when no sentence of the ranked chunks matches the
query terms it returns the first sentence of the single highest-scoring
(head) chunk. -/
theorem synthesize_fallbacks (q : String) (top : Chunk × ℚ)
    (rest : List (Chunk × ℚ))
    (hnm : ∀ s ∈ allSentences (top :: rest), sentenceMatches q s = false) :
    synthesize q [] = "no summary available" ∧
    synthesize q (top :: rest) = (sentencesOf top.1.text).headD "" := by
  refine ⟨rfl, ?_⟩
  have hf : (allSentences (top :: rest)).filter (fun s => sentenceMatches q s) = [] := by
    rw [List.filter_eq_nil_iff]
    intro a ha
    simp [hnm a ha]
  rw [synthesize, hf]
  rfl

/-- C8 witness: a query matching no sentence of a concrete chunk. -/
theorem synthesize_fallbacks_witness :
    ((∀ s ∈ allSentences [demoRanked], sentenceMatches "zebra" s = false) ∧
      synthesize "zebra" [demoRanked] = (sentencesOf demoRanked.1.text).headD "") :=
  ⟨by decide, (synthesize_fallbacks "zebra" demoRanked [] (by decide)).2⟩

/-- C9: `getOverallProgress` returns `0` when the step list is absent or
empty, otherwise `100` times the number of completed steps divided by the
total number of steps, and the returned value always lies between `0` and
`100` inclusive. -/
theorem getOverallProgress_spec :
    Frontend.getOverallProgress none = 0 ∧
    Frontend.getOverallProgress (some []) = 0 ∧
    (∀ l : List Frontend.ResearchStep, l ≠ [] →
      Frontend.getOverallProgress (some l) =
        100 * ((l.filter
            (fun s => decide (s.status = Frontend.StepStatus.completed))).length : ℚ) /
          (l.length : ℚ)) ∧
    ∀ steps, 0 ≤ Frontend.getOverallProgress steps ∧
      Frontend.getOverallProgress steps ≤ 100 := by
  refine ⟨rfl, rfl, ?_, ?_⟩
  · intro l hl
    have h0 : ¬ l.length = 0 := by simpa using hl
    rw [Frontend.getOverallProgress, if_neg h0]
    ring
  · intro steps
    rcases steps with _ | l
    · constructor <;> norm_num [Frontend.getOverallProgress]
    · by_cases h0 : l.length = 0
      · rw [Frontend.getOverallProgress, if_pos h0]
        constructor <;> norm_num
      · rw [Frontend.getOverallProgress, if_neg h0]
        have hn : (0 : ℚ) < (l.length : ℚ) := by
          exact_mod_cast Nat.pos_of_ne_zero h0
        have hc : ((l.filter
            (fun s => decide (s.status = Frontend.StepStatus.completed))).length : ℚ) ≤
            (l.length : ℚ) := by
          exact_mod_cast List.length_filter_le _ l
        constructor
        · positivity
        · calc ((l.filter
                (fun s => decide (s.status = Frontend.StepStatus.completed))).length : ℚ) /
                (l.length : ℚ) * 100
              ≤ 1 * 100 := by
                apply mul_le_mul_of_nonneg_right _ (by norm_num)
                exact (div_le_one hn).mpr hc
          _ = 100 := by norm_num

/-- C9 witness: the progress of a concrete two-step list, one step
completed. -/
theorem getOverallProgress_witness :
    (([⟨"1", "a", Frontend.StepStatus.completed, []⟩,
        ⟨"2", "b", Frontend.StepStatus.pending, []⟩] :
          List Frontend.ResearchStep) ≠ []) ∧
      Frontend.getOverallProgress
          (some [⟨"1", "a", Frontend.StepStatus.completed, []⟩,
            ⟨"2", "b", Frontend.StepStatus.pending, []⟩]) =
        100 * ((([⟨"1", "a", Frontend.StepStatus.completed, []⟩,
            ⟨"2", "b", Frontend.StepStatus.pending, []⟩] :
              List Frontend.ResearchStep).filter
            (fun s => decide (s.status = Frontend.StepStatus.completed))).length : ℚ) /
          (([⟨"1", "a", Frontend.StepStatus.completed, []⟩,
            ⟨"2", "b", Frontend.StepStatus.pending, []⟩] :
              List Frontend.ResearchStep).length : ℚ) :=
  ⟨by decide,
    getOverallProgress_spec.2.2.1
      [⟨"1", "a", Frontend.StepStatus.completed, []⟩,
        ⟨"2", "b", Frontend.StepStatus.pending, []⟩] (by decide)⟩

/-- C10: `useSearch` throws exactly the error
"useSearch must be used within a SearchProvider" precisely when the context
is absent (no surrounding `SearchProvider`), and returns the provided
context value unchanged when one is present. -/
theorem useSearch_spec (ctx : Option Frontend.SearchContentType) :
    (Frontend.useSearch ctx =
        .error "useSearch must be used within a SearchProvider" ↔ ctx = none) ∧
    ∀ c, ctx = some c → Frontend.useSearch ctx = .ok c := by
  rcases ctx with _ | c
  · exact ⟨⟨fun _ => rfl, fun _ => rfl⟩, fun c h => nomatch h⟩
  · constructor
    · constructor
      · intro h
        exact nomatch h
      · intro h
        exact nomatch h
    · intro c2 h
      injection h with h2
      rw [h2]
      rfl

/-- C10 witness: `useSearch` inside a provider returns the context value. -/
theorem useSearch_spec_witness :
    Frontend.useSearch (some demoCtx) = .ok demoCtx :=
  (useSearch_spec (some demoCtx)).2 demoCtx rfl

end DeepResearcher
